import Mathlib

/-!
Shallow embedding of the Auto-Claude workflow core:
  - the workflow state store (bmad_state.py, class WorkflowStateManager),
  - the workflow execution engine loop (bmad_engine.py, WorkflowEngine.execute_workflow),
  - the multi-agent party-mode scheduler (multi_agent_orchestrator.py,
    MultiAgentOrchestrator).
External boundaries (filesystem timestamps, the agent-invocation boundary, the
collected-outputs filesystem scan) are threaded as explicit parameters; everything
else is translated directly from the Python source.
-/

set_option maxHeartbeats 1000000

namespace BmadState

/-- Execution state record persisted per workflow name, with the fields documented in
WorkflowStateManager.get_state and written by the mark functions. Timestamps are abstract
strings supplied by the caller in place of datetime.now().isoformat(). -/
structure ExecState where
  status : String
  stepsCompleted : List String
  currentStep : Nat
  startedAt : Option String := none
  completedAt : Option String := none
  failedAt : Option String := none
  lastUpdated : Option String := none
  lastError : Option String := none
  failedAtStep : Option Nat := none
deriving Repr, DecidableEq

/-- Default record returned by get_state when the state file is absent or unreadable. -/
def default_state : ExecState :=
  { status := "not_started", stepsCompleted := [], currentStep := 0 }

/-- Models WorkflowStateManager.get_state: the stored record, or the default one when the
file is absent (the source also maps an unreadable file to the same default). -/
def get_state (store : Option ExecState) : ExecState :=
  store.getD default_state

/-- Models WorkflowStateManager.mark_step_complete: append the step name only if absent,
transition not_started to in_progress setting startedAt, recompute currentStep as the
length of stepsCompleted, stamp lastUpdated. -/
def mark_step_complete (now : String) (st : ExecState) (step_name : String) : ExecState :=
  let steps := if step_name ∈ st.stepsCompleted then st.stepsCompleted
               else st.stepsCompleted ++ [step_name]
  let st1 := { st with stepsCompleted := steps }
  let st2 := if st1.status = "not_started" then
               { st1 with status := "in_progress", startedAt := some now }
             else st1
  { st2 with currentStep := steps.length, lastUpdated := some now }

/-- Models WorkflowStateManager.mark_workflow_complete. -/
def mark_workflow_complete (now : String) (st : ExecState) : ExecState :=
  { st with status := "completed", completedAt := some now, lastUpdated := some now }

/-- Models WorkflowStateManager.mark_workflow_failed: set status failed, record the error,
record the failing step number when given, stamp failedAt and lastUpdated. -/
def mark_workflow_failed (now : String) (st : ExecState) (error : String)
    (step_num : Option Nat) : ExecState :=
  let st1 := { st with status := "failed", lastError := some error }
  let st2 := match step_num with
    | some n => { st1 with failedAtStep := some n }
    | none => st1
  { st2 with failedAt := some now, lastUpdated := some now }

/-- One state-store mutation, as exposed by WorkflowStateManager (reset_workflow deletes
the backing file, leaving the record absent). -/
inductive StoreOp where
  | markStep (step_name : String) (now : String)
  | markComplete (now : String)
  | markFailed (error : String) (step_num : Option Nat) (now : String)
  | reset
deriving Repr

/-- Effect of one operation on the stored record: each mark function is a read-modify-write
through get_state followed by save_state; reset_workflow unlinks the file. -/
def apply_op (store : Option ExecState) : StoreOp → Option ExecState
  | StoreOp.markStep n now => some (mark_step_complete now (get_state store) n)
  | StoreOp.markComplete now => some (mark_workflow_complete now (get_state store))
  | StoreOp.markFailed e k now => some (mark_workflow_failed now (get_state store) e k)
  | StoreOp.reset => none

/-- Store contents after a sequence of state-store operations starting from an absent
record (the lazily-created default). -/
def run_ops (ops : List StoreOp) : Option ExecState :=
  ops.foldl apply_op none

lemma mark_step_complete_stepsCompleted (now : String) (st : ExecState) (n : String) :
    (mark_step_complete now st n).stepsCompleted
      = if n ∈ st.stepsCompleted then st.stepsCompleted else st.stepsCompleted ++ [n] := by
  unfold mark_step_complete
  by_cases h1 : n ∈ st.stepsCompleted <;> by_cases h2 : st.status = "not_started" <;>
    simp [h1, h2]

lemma mark_step_complete_currentStep (now : String) (st : ExecState) (n : String) :
    (mark_step_complete now st n).currentStep
      = (mark_step_complete now st n).stepsCompleted.length := by
  unfold mark_step_complete
  by_cases h1 : n ∈ st.stepsCompleted <;> by_cases h2 : st.status = "not_started" <;>
    simp [h1, h2]

lemma mark_step_complete_status (now : String) (st : ExecState) (n : String) :
    (mark_step_complete now st n).status
      = if st.status = "not_started" then "in_progress" else st.status := by
  unfold mark_step_complete
  by_cases h1 : n ∈ st.stepsCompleted <;> by_cases h2 : st.status = "not_started" <;>
    simp [h1, h2]

lemma inv_preserved (store : Option ExecState) (op : StoreOp)
    (h : (get_state store).currentStep = (get_state store).stepsCompleted.length) :
    (get_state (apply_op store op)).currentStep
      = (get_state (apply_op store op)).stepsCompleted.length := by
  cases op with
  | markStep n now =>
      simpa [apply_op, get_state] using mark_step_complete_currentStep now (get_state store) n
  | markComplete now =>
      simpa [apply_op, get_state, mark_workflow_complete] using h
  | markFailed e k now =>
      cases k <;> simpa [apply_op, get_state, mark_workflow_failed] using h
  | reset =>
      simp [apply_op, get_state, default_state]

lemma inv_foldl (ops : List StoreOp) :
    ∀ store : Option ExecState,
      (get_state store).currentStep = (get_state store).stepsCompleted.length →
      (get_state (ops.foldl apply_op store)).currentStep
        = (get_state (ops.foldl apply_op store)).stepsCompleted.length := by
  induction ops with
  | nil => intro store h; simpa using h
  | cons op rest ih =>
      intro store h
      simp only [List.foldl_cons]
      exact ih _ (inv_preserved store op h)

lemma nodup_mark_step (now : String) (st : ExecState) (n : String)
    (h : st.stepsCompleted.Nodup) : (mark_step_complete now st n).stepsCompleted.Nodup := by
  rw [mark_step_complete_stepsCompleted]
  by_cases hn : n ∈ st.stepsCompleted
  · simpa [hn] using h
  · simp only [hn, if_false]
    rw [List.nodup_append]
    exact ⟨h, List.nodup_singleton n, by
      intro x hx hx'
      rw [List.mem_singleton] at hx'
      subst hx'
      exact hn hx⟩

lemma nodup_preserved (store : Option ExecState) (op : StoreOp)
    (h : (get_state store).stepsCompleted.Nodup) :
    (get_state (apply_op store op)).stepsCompleted.Nodup := by
  cases op with
  | markStep n now =>
      simpa [apply_op, get_state] using nodup_mark_step now (get_state store) n h
  | markComplete now =>
      simpa [apply_op, get_state, mark_workflow_complete] using h
  | markFailed e k now =>
      cases k <;> simpa [apply_op, get_state, mark_workflow_failed] using h
  | reset =>
      simp [apply_op, get_state, default_state]

lemma nodup_foldl (ops : List StoreOp) :
    ∀ store : Option ExecState,
      (get_state store).stepsCompleted.Nodup →
      (get_state (ops.foldl apply_op store)).stepsCompleted.Nodup := by
  induction ops with
  | nil => intro store h; simpa using h
  | cons op rest ih =>
      intro store h
      simp only [List.foldl_cons]
      exact ih _ (nodup_preserved store op h)

end BmadState

/-- C3: after any sequence of state-store operations starting from the default (absent)
record, every read of the execution state satisfies currentStep = len(stepsCompleted). -/
theorem current_step_tracks_steps_completed (ops : List BmadState.StoreOp) :
    (BmadState.get_state (BmadState.run_ops ops)).currentStep
      = (BmadState.get_state (BmadState.run_ops ops)).stepsCompleted.length := by
  unfold BmadState.run_ops
  exact BmadState.inv_foldl ops none (by simp [BmadState.get_state, BmadState.default_state])

/-- C4: mark_step_complete is idempotent in the step name: marking the same name twice
from the default record yields a single-element stepsCompleted, and after any sequence of
state-store operations stepsCompleted never holds a duplicate name. -/
theorem mark_step_complete_idempotent :
    (∀ now1 now2 n : String,
        (BmadState.mark_step_complete now1 BmadState.default_state n).stepsCompleted = [n]
        ∧ (BmadState.mark_step_complete now2
            (BmadState.mark_step_complete now1 BmadState.default_state n) n).stepsCompleted
          = [n])
    ∧ ∀ ops : List BmadState.StoreOp,
        (BmadState.get_state (BmadState.run_ops ops)).stepsCompleted.Nodup := by
  constructor
  · intro now1 now2 n
    have h1 : (BmadState.mark_step_complete now1 BmadState.default_state n).stepsCompleted
        = [n] := by
      rw [BmadState.mark_step_complete_stepsCompleted]
      simp [BmadState.default_state]
    refine ⟨h1, ?_⟩
    rw [BmadState.mark_step_complete_stepsCompleted, h1]
    simp
  · intro ops
    unfold BmadState.run_ops
    exact BmadState.nodup_foldl ops none
      (by simp [BmadState.get_state, BmadState.default_state])

namespace BmadEngine

open BmadState

/-- Result of a single step execution (bmad_engine.py, dataclass StepResult). -/
structure StepResult where
  status : String
  output : Option String := none
  error : Option String := none
deriving Repr, DecidableEq

/-- Result of a workflow execution (bmad_engine.py, dataclass WorkflowResult). The outputs
mapping is abstracted to the value produced by the filesystem scan. -/
structure WorkflowResult where
  status : String
  outputs : Option (List String) := none
  failed_step : Option Nat := none
  error : Option String := none
deriving Repr, DecidableEq

/-- Observable outcome of one execute_workflow call: the returned WorkflowResult, the
final stored state record, and the 0-based indices of the steps whose execution was
invoked, in order. -/
structure ExecOutcome where
  result : WorkflowResult
  state : ExecState
  invoked : List Nat
deriving Repr, DecidableEq

/-- Sequential step loop of WorkflowEngine.execute_workflow. exec i stands for the
StepResult of _execute_step on the step at absolute index i (the agent-invocation
boundary); rem is the remaining suffix of step names; st the stored state record. On a
failed step the loop returns a failed WorkflowResult with failed_step = i + 1 without
touching the store; on success it marks the step complete (read-modify-write through the
state manager) and continues; on exhaustion it marks the workflow complete and returns
success with the collected outputs outs. -/
def run_steps (exec : Nat → StepResult) (now : String) (outs : List String) :
    List String → Nat → ExecState → ExecOutcome
  | [], _, st =>
    { result := { status := "success", outputs := some outs },
      state := mark_workflow_complete now st, invoked := [] }
  | name :: rest, i, st =>
    let r := exec i
    if r.status = "failed" then
      { result := { status := "failed", failed_step := some (i + 1), error := r.error },
        state := st, invoked := [i] }
    else
      let o := run_steps exec now outs rest (i + 1) (mark_step_complete now st name)
      { result := o.result, state := o.state, invoked := i :: o.invoked }

/-- Models WorkflowEngine.execute_workflow for a workflow that loads with the given step
names: read the stored state record st0, resume at start_index = len(stepsCompleted), and
run the remaining steps. -/
def execute_workflow (exec : Nat → StepResult) (now : String) (outs : List String)
    (steps : List String) (st0 : ExecState) : ExecOutcome :=
  run_steps exec now outs (steps.drop st0.stepsCompleted.length)
    st0.stepsCompleted.length st0

lemma run_steps_invoked_ge (exec : Nat → StepResult) (now : String) (outs : List String) :
    ∀ (rem : List String) (i : Nat) (st : ExecState) (j : Nat),
      j ∈ (run_steps exec now outs rem i st).invoked → i ≤ j := by
  intro rem
  induction rem with
  | nil => intro i st j hj; simp [run_steps] at hj
  | cons name rest ih =>
      intro i st j hj
      rw [run_steps] at hj
      by_cases hf : (exec i).status = "failed"
      · simp only [hf, if_pos rfl] at hj
        simp at hj
        omega
      · simp only [if_neg hf] at hj
        simp at hj
        rcases hj with rfl | hj
        · exact Nat.le_refl j
        · exact Nat.le_of_succ_le (ih (i + 1) _ j hj)

lemma run_steps_first (exec : Nat → StepResult) (now : String) (outs : List String)
    (name : String) (rest : List String) (i : Nat) (st : ExecState) :
    (run_steps exec now outs (name :: rest) i st).invoked.head? = some i := by
  rw [run_steps]
  by_cases hf : (exec i).status = "failed"
  · simp [hf]
  · simp [hf]

lemma run_steps_fail_at (exec : Nat → StepResult) (now : String) (outs : List String)
    (f : Nat) (hfail : (exec f).status = "failed") :
    ∀ (rem : List String) (i : Nat) (st : ExecState),
      (∀ j, i ≤ j → j < f → (exec j).status ≠ "failed") →
      i ≤ f → f < i + rem.length →
      run_steps exec now outs rem i st =
        { result := { status := "failed", failed_step := some (f + 1),
                      error := (exec f).error },
          state := List.foldl (fun s n => mark_step_complete now s n) st (rem.take (f - i)),
          invoked := List.range' i (f - i + 1) } := by
  intro rem
  induction rem with
  | nil =>
      intro i st _ hif hlt
      simp only [List.length_nil, Nat.add_zero] at hlt
      omega
  | cons name rest ih =>
      intro i st hsucc hif hlt
      rcases Nat.eq_or_lt_of_le hif with heq | hlt2
      · subst heq
        rw [run_steps]
        simp [hfail, Nat.sub_self, List.range'_one]
      · have hne := hsucc i (Nat.le_refl i) hlt2
        rw [run_steps]
        simp only [if_neg hne]
        rw [ih (i + 1) (mark_step_complete now st name)
          (fun j hj1 hj2 => hsucc j (by omega) hj2) (by omega)
          (by simp only [List.length_cons] at hlt; omega)]
        have ht : (name :: rest).take (f - i) = name :: rest.take (f - (i + 1)) := by
          have hfi : f - i = (f - (i + 1)) + 1 := by omega
          rw [hfi, List.take_succ_cons]
        have hr : List.range' i (f - i + 1) = i :: List.range' (i + 1) (f - (i + 1) + 1) := by
          have hfi : f - i + 1 = (f - (i + 1) + 1) + 1 := by omega
          rw [hfi]
          rfl
        rw [ht, hr, List.foldl_cons]

lemma foldl_mark_stepsCompleted (now : String) :
    ∀ (ns : List String) (st : ExecState),
      (∀ n ∈ ns, n ∉ st.stepsCompleted) → ns.Nodup →
      (List.foldl (fun s n => mark_step_complete now s n) st ns).stepsCompleted
        = st.stepsCompleted ++ ns := by
  intro ns
  induction ns with
  | nil => intro st _ _; simp
  | cons n rest ih =>
      intro st h hd
      rw [List.foldl_cons]
      have hn : n ∉ st.stepsCompleted := h n (List.mem_cons_self n rest)
      have hsc : (mark_step_complete now st n).stepsCompleted
          = st.stepsCompleted ++ [n] := by
        rw [mark_step_complete_stepsCompleted]
        simp [hn]
      rw [ih (mark_step_complete now st n)
        (by
          intro m hm
          rw [hsc]
          intro hmem
          rw [List.mem_append] at hmem
          rcases hmem with hm1 | hm2
          · exact h m (List.mem_cons_of_mem n hm) hm1
          · rw [List.mem_singleton] at hm2
            subst hm2
            exact (List.nodup_cons.mp hd).1 hm)
        (List.nodup_cons.mp hd).2]
      rw [hsc]
      simp

lemma nodup_length_le (l r : List String) (h : l.Nodup) (hs : ∀ x ∈ l, x ∈ r) :
    l.length ≤ r.length := by
  classical
  calc l.length = l.toFinset.card := (List.toFinset_card_of_nodup h).symm
    _ ≤ r.toFinset.card := Finset.card_le_card (by
        intro x hx
        rw [List.mem_toFinset] at hx ⊢
        exact hs x hx)
    _ ≤ r.length := r.toFinset_card_le

end BmadEngine

namespace BmadEngine

open BmadState

lemma execute_workflow_def (exec : Nat → StepResult) (now : String) (outs : List String)
    (steps : List String) (st0 : ExecState) :
    execute_workflow exec now outs steps st0
      = run_steps exec now outs (steps.drop st0.stepsCompleted.length)
          st0.stepsCompleted.length st0 := rfl

/-- Step behaviour used in concrete scenarios: every step execution fails. -/
def fail_exec : Nat → StepResult :=
  fun _ => { status := "failed", error := some "boom" }

/-- Step behaviour used in concrete scenarios: every step execution succeeds. -/
def ok_exec : Nat → StepResult :=
  fun _ => { status := "success", output := some "ok" }

/-- Step behaviour used in concrete scenarios: the step at index 2 fails, earlier and
later steps succeed. -/
def demo_exec : Nat → StepResult :=
  fun i => if i = 2 then { status := "failed", error := some "boom" }
           else { status := "success", output := some "ok" }

/-- A persisted record of a two-step workflow that ran to completion. -/
def demo_done_state : ExecState :=
  { status := "completed", stepsCompleted := ["a", "b"], currentStep := 2 }

end BmadEngine

/-- C1: refuting evaluation. Executing a one-step workflow whose step fails returns
WorkflowResult failed with the error and failed step index, but the stored state record is
left exactly as it was (the default not_started record): execute_workflow never calls
mark_workflow_failed, so neither the failed status nor the error text nor the failed step
index is persisted. -/
theorem engine_failure_not_persisted :
    (BmadEngine.execute_workflow BmadEngine.fail_exec "t" [] ["s1"]
        BmadState.default_state).result
      = { status := "failed", failed_step := some 1, error := some "boom" }
    ∧ (BmadEngine.execute_workflow BmadEngine.fail_exec "t" [] ["s1"]
        BmadState.default_state).state = BmadState.default_state := by
  decide

/-- C2: counterexample. For the workflow with step names [s, s, t] (duplicate names) where
steps 1 and 2 succeed and step 3 fails, the first run records stepsCompleted = [s] only
(idempotent completion), so the persisted resume index is 1 and the second run re-invokes
step 2 (0-based index 1), one of the already-completed steps s1..s(k-1), instead of
re-attempting exactly the failed step k = 3. -/
theorem resume_reinvokes_duplicate_named_step :
    (BmadEngine.execute_workflow BmadEngine.demo_exec "t" [] ["s", "s", "t"]
        BmadState.default_state).result.status = "failed"
    ∧ (BmadEngine.execute_workflow BmadEngine.demo_exec "t" [] ["s", "s", "t"]
        BmadState.default_state).result.failed_step = some 3
    ∧ (BmadEngine.execute_workflow BmadEngine.demo_exec "t" [] ["s", "s", "t"]
        BmadState.default_state).state.stepsCompleted = ["s"]
    ∧ (BmadEngine.execute_workflow BmadEngine.demo_exec "t" [] ["s", "s", "t"]
        (BmadEngine.execute_workflow BmadEngine.demo_exec "t" [] ["s", "s", "t"]
          BmadState.default_state).state).invoked = [1, 2] := by
  decide

/-- C2 amended: for a workflow whose step names are pairwise distinct, if a run that
resumes from a consistent record (stepsCompleted = the first m step names) fails at the
step of 0-based index f (1-based step k = f + 1), then the run returns WorkflowResult
failed with failed_step = f + 1, persists exactly the first f step names (the failed step
name is not appended), and any subsequent run with the unchanged persisted state invokes
the failed step first and never re-invokes any earlier step. -/
theorem resume_at_failed_step_of_nodup_names
    (steps : List String) (exec exec2 : Nat → BmadEngine.StepResult)
    (now now2 : String) (outs outs2 : List String)
    (st0 : BmadState.ExecState) (m f : Nat)
    (hnd : steps.Nodup)
    (h0 : st0.stepsCompleted = steps.take m)
    (hm : m ≤ f) (hf : f < steps.length)
    (hsucc : ∀ j, j < f → (exec j).status ≠ "failed")
    (hfail : (exec f).status = "failed") :
    (BmadEngine.execute_workflow exec now outs steps st0).result.status = "failed"
    ∧ (BmadEngine.execute_workflow exec now outs steps st0).result.failed_step
        = some (f + 1)
    ∧ (BmadEngine.execute_workflow exec now outs steps st0).state.stepsCompleted
        = steps.take f
    ∧ steps.getD f "" ∉ (BmadEngine.execute_workflow exec now outs steps st0).state.stepsCompleted
    ∧ (BmadEngine.execute_workflow exec2 now2 outs2 steps
        (BmadEngine.execute_workflow exec now outs steps st0).state).invoked.head?
        = some f
    ∧ ∀ j ∈ (BmadEngine.execute_workflow exec2 now2 outs2 steps
        (BmadEngine.execute_workflow exec now outs steps st0).state).invoked, f ≤ j := by
  have hlen0 : st0.stepsCompleted.length = m := by
    rw [h0, List.length_take]
    omega
  have hA : BmadEngine.execute_workflow exec now outs steps st0 =
      { result := { status := "failed", failed_step := some (f + 1),
                    error := (exec f).error },
        state := List.foldl (fun s n => BmadState.mark_step_complete now s n) st0
          ((steps.drop m).take (f - m)),
        invoked := List.range' m (f - m + 1) } := by
    rw [BmadEngine.execute_workflow_def, hlen0]
    exact BmadEngine.run_steps_fail_at exec now outs f hfail (steps.drop m) m st0
      (fun j _ hj => hsucc j hj) hm (by rw [List.length_drop]; omega)
  have htf_nodup : (steps.take f).Nodup := (List.take_sublist f steps).nodup hnd
  have htf_split : steps.take f = steps.take m ++ (steps.take f).drop m := by
    conv_lhs => rw [← List.take_append_drop m (steps.take f)]
    rw [List.take_take, Nat.min_eq_left hm]
  have hdisj : ∀ x ∈ (steps.take f).drop m, x ∉ steps.take m := by
    have hnod2 : (steps.take m ++ (steps.take f).drop m).Nodup := by
      rw [← htf_split]
      exact htf_nodup
    have hd := List.disjoint_of_nodup_append hnod2
    intro x hx hx2
    exact hd hx2 hx
  have hns : (steps.drop m).take (f - m) = (steps.take f).drop m :=
    (List.drop_take f m steps).symm
  have hstateFold : (List.foldl (fun s n => BmadState.mark_step_complete now s n) st0
      ((steps.drop m).take (f - m))).stepsCompleted = steps.take f := by
    rw [hns]
    rw [BmadEngine.foldl_mark_stepsCompleted now _ st0
      (by
        intro n hn
        rw [h0]
        exact hdisj n hn)
      ((List.drop_sublist m (steps.take f)).nodup htf_nodup)]
    rw [h0, ← htf_split]
  have hA2 : (BmadEngine.execute_workflow exec now outs steps st0).state
      = List.foldl (fun s n => BmadState.mark_step_complete now s n) st0
          ((steps.drop m).take (f - m)) := by
    rw [hA]
  have hstate : (BmadEngine.execute_workflow exec now outs steps st0).state.stepsCompleted
      = steps.take f := by
    rw [hA2]
    exact hstateFold
  have hlen1 : (steps.take f).length = f := by
    rw [List.length_take]
    omega
  have hdropf : steps.drop f = steps[f] :: steps.drop (f + 1) :=
    List.drop_eq_getElem_cons hf
  have hgetd : steps.getD f "" = steps[f] := List.getD_eq_getElem steps "" hf
  have hnotin : steps[f] ∉ steps.take f := by
    have hnod3 : (steps.take f ++ steps.drop f).Nodup := by
      rw [List.take_append_drop]
      exact hnd
    have hd := List.disjoint_of_nodup_append hnod3
    intro hx
    refine hd hx ?_
    rw [hdropf]
    exact List.mem_cons_self _ _
  refine ⟨by rw [hA], by rw [hA], hstate, ?_, ?_, ?_⟩
  · rw [hstate, hgetd]
    exact hnotin
  · rw [BmadEngine.execute_workflow_def, hstate, hlen1, hdropf]
    exact BmadEngine.run_steps_first exec2 now2 outs2 _ _ f _
  · intro j hj
    rw [BmadEngine.execute_workflow_def, hstate, hlen1] at hj
    exact BmadEngine.run_steps_invoked_ge exec2 now2 outs2 _ f _ j hj

/-- C2 witness: the amended resumability theorem instantiated on the three-step workflow
[a, b, c] with distinct names whose third step fails. -/
theorem resume_at_failed_step_witness :
    (BmadEngine.execute_workflow BmadEngine.demo_exec "t" [] ["a", "b", "c"]
        BmadState.default_state).result.status = "failed"
    ∧ (BmadEngine.execute_workflow BmadEngine.demo_exec "t" [] ["a", "b", "c"]
        BmadState.default_state).result.failed_step = some 3
    ∧ (BmadEngine.execute_workflow BmadEngine.demo_exec "t" [] ["a", "b", "c"]
        BmadState.default_state).state.stepsCompleted = ["a", "b", "c"].take 2
    ∧ ["a", "b", "c"].getD 2 "" ∉ (BmadEngine.execute_workflow BmadEngine.demo_exec "t" []
        ["a", "b", "c"] BmadState.default_state).state.stepsCompleted
    ∧ (BmadEngine.execute_workflow BmadEngine.demo_exec "t2" [] ["a", "b", "c"]
        (BmadEngine.execute_workflow BmadEngine.demo_exec "t" [] ["a", "b", "c"]
          BmadState.default_state).state).invoked.head? = some 2
    ∧ ∀ j ∈ (BmadEngine.execute_workflow BmadEngine.demo_exec "t2" [] ["a", "b", "c"]
        (BmadEngine.execute_workflow BmadEngine.demo_exec "t" [] ["a", "b", "c"]
          BmadState.default_state).state).invoked, 2 ≤ j :=
  resume_at_failed_step_of_nodup_names ["a", "b", "c"] BmadEngine.demo_exec
    BmadEngine.demo_exec "t" "t2" [] [] BmadState.default_state 0 2
    (by decide) (by decide) (by decide) (by decide) (by decide) (by decide)

/-- C7: counterexample. A workflow with the duplicate step names [s, s] runs to
completion: the persisted record has status completed and lists every step name as
completed (stepsCompleted = [s]). Re-executing from that record nevertheless invokes the
step at index 1 again, because the resume index len(stepsCompleted) = 1 is below
len(steps) = 2. -/
theorem completed_rerun_invokes_step :
    (BmadEngine.execute_workflow BmadEngine.ok_exec "t" [] ["s", "s"]
        BmadState.default_state).result.status = "success"
    ∧ (BmadEngine.execute_workflow BmadEngine.ok_exec "t" [] ["s", "s"]
        BmadState.default_state).state.status = "completed"
    ∧ (∀ n ∈ ["s", "s"], n ∈ (BmadEngine.execute_workflow BmadEngine.ok_exec "t" []
        ["s", "s"] BmadState.default_state).state.stepsCompleted)
    ∧ (BmadEngine.execute_workflow BmadEngine.ok_exec "t" [] ["s", "s"]
        (BmadEngine.execute_workflow BmadEngine.ok_exec "t" [] ["s", "s"]
          BmadState.default_state).state).invoked = [1] := by
  decide

/-- C7 amended: for a workflow whose step names are pairwise distinct, re-executing from
a persisted record that lists every step name as completed returns WorkflowResult success
and performs no step invocation at all. -/
theorem completed_rerun_vacuous_of_nodup_names
    (steps : List String) (exec : Nat → BmadEngine.StepResult) (now : String)
    (outs : List String) (st0 : BmadState.ExecState)
    (hnd : steps.Nodup)
    (hall : ∀ n ∈ steps, n ∈ st0.stepsCompleted) :
    (BmadEngine.execute_workflow exec now outs steps st0).result.status = "success"
    ∧ (BmadEngine.execute_workflow exec now outs steps st0).invoked = [] := by
  have hle : steps.length ≤ st0.stepsCompleted.length :=
    BmadEngine.nodup_length_le steps st0.stepsCompleted hnd hall
  rw [BmadEngine.execute_workflow_def, List.drop_eq_nil_of_le hle]
  rw [BmadEngine.run_steps]
  exact ⟨rfl, rfl⟩

/-- C7 witness: the amended vacuous re-run theorem instantiated on the two-step workflow
[a, b] whose persisted record already lists both steps as completed. -/
theorem completed_rerun_vacuous_witness :
    (BmadEngine.execute_workflow BmadEngine.ok_exec "t" [] ["a", "b"]
        BmadEngine.demo_done_state).result.status = "success"
    ∧ (BmadEngine.execute_workflow BmadEngine.ok_exec "t" [] ["a", "b"]
        BmadEngine.demo_done_state).invoked = [] :=
  completed_rerun_vacuous_of_nodup_names ["a", "b"] BmadEngine.ok_exec "t" []
    BmadEngine.demo_done_state (by decide) (by decide)

namespace PartyMode

/-- Single agent contribution to the discussion (multi_agent_orchestrator.py, dataclass
AgentContribution). Timestamps are abstract strings supplied in place of datetime.now(). -/
structure AgentContribution where
  agent_type : String
  agent_name : String
  round_num : Nat
  content : String
  timestamp : String
deriving Repr, DecidableEq

/-- Result of a party-mode session (dataclass PartyModeResult). -/
structure PartyModeResult where
  discussion_history : List AgentContribution
  synthesis : String
  status : String
deriving Repr, DecidableEq

/-- Display name and role of an agent persona (values of AGENT_PERSONAS). -/
structure Persona where
  name : String
  role : String
deriving Repr, DecidableEq

/-- Models str.title for the space-separated lowercase role identifiers used as fallback
persona names. -/
def title_case (s : String) : String :=
  String.intercalate " " ((s.splitOn " ").map String.capitalize)

/-- Models AGENT_PERSONAS.get(agent_type, fallback with titled name and the raw type as
role). -/
def persona_for (t : String) : Persona :=
  if t = "pm" then { name := "John", role := "Product Manager" }
  else if t = "architect" then { name := "Winston", role := "Solutions Architect" }
  else if t = "dev" then { name := "Amelia", role := "Developer" }
  else if t = "tea" then { name := "Murat", role := "Test Engineer & Architect" }
  else if t = "sm" then { name := "Sarah", role := "Scrum Master" }
  else { name := title_case t, role := t }

/-- Python history[-10:]: the last n elements of a list. -/
def lastN (n : Nat) (l : List α) : List α :=
  l.drop (l.length - n)

/-- Rendering of one prior contribution inside the context message. -/
def render_line (c : AgentContribution) : String :=
  "[Round " ++ toString c.round_num ++ "] " ++ c.agent_name ++ " (" ++ c.agent_type
    ++ "): " ++ c.content

/-- Closing instruction line of the context message. -/
def instruction_for (p : Persona) : String :=
  "You are " ++ p.name ++ ", the " ++ p.role
    ++ ". Provide a brief, focused contribution (2-3 sentences) to this discussion from "
    ++ "your perspective. Be specific and add value based on your expertise."

/-- Context lines built by _get_agent_contribution: topic header, then (when history is
nonempty) a Previous Discussion block holding the last 10 contributions, then the persona
instruction. The message sent to the agent is these lines joined with newlines. -/
def build_context_lines (topic : String) (history : List AgentContribution)
    (p : Persona) : List String :=
  ["Discussion Topic: " ++ topic, ""]
    ++ (if history.isEmpty then []
        else "Previous Discussion:" :: ((lastN 10 history).map render_line) ++ [""])
    ++ [instruction_for p]

/-- Length cap applied to a successful response: content[:497] + "..." when longer than
500 characters. -/
def truncate (s : String) : String :=
  if 500 < s.length then s.take 497 ++ "..." else s

/-- Models _get_agent_contribution. behave stands for the agent-invocation boundary
(run_agent_session): given the agent type and the joined context message it returns the
response text or raises. A raised exception is converted into the fallback placeholder
contribution. Returns the contribution together with the context lines built for the
invocation. -/
def get_agent_contribution (behave : String → String → Except String String)
    (now : String) (agent_type : String) (topic : String)
    (history : List AgentContribution) (round_num : Nat) :
    AgentContribution × List String :=
  let p := persona_for agent_type
  let lines := build_context_lines topic history p
  let context := String.intercalate "\n" lines
  let contribution := match behave agent_type context with
    | Except.ok text =>
        { agent_type := agent_type, agent_name := p.name, round_num := round_num,
          content := truncate text.trim, timestamp := now : AgentContribution }
    | Except.error e =>
        { agent_type := agent_type, agent_name := p.name, round_num := round_num,
          content := p.name ++ " (" ++ p.role ++ "): Unable to contribute (error: "
            ++ e ++ ")", timestamp := now }
  (contribution, lines)

/-- Models _run_round_robin: each agent contributes in sequence, and every contribution
is appended to the shared history list before the next agent is invoked. Returns the
round contributions (paired with the context lines each invocation saw) together with the
mutated history list. -/
def run_round_robin (behave : String → String → Except String String) (now : String)
    (topic : String) (round_num : Nat) :
    List String → List AgentContribution →
      List (AgentContribution × List String) × List AgentContribution
  | [], history => ([], history)
  | a :: rest, history =>
    let p := get_agent_contribution behave now a topic history round_num
    let o := run_round_robin behave now topic round_num rest (history ++ [p.1])
    (p :: o.1, o.2)

/-- Models _run_free_form: all agents are invoked with the identical history snapshot
taken at the start of the round; the shared history list is not mutated. -/
def run_free_form (behave : String → String → Except String String) (now : String)
    (topic : String) (round_num : Nat) (roles : List String)
    (history : List AgentContribution) : List (AgentContribution × List String) :=
  roles.map (fun a => get_agent_contribution behave now a topic history round_num)

/-- Round loop of run_party_mode: for each round the chosen mode produces the round
outputs and discussion_history.extend(round_outputs) is applied. In round-robin mode the
round already appended its contributions to the same shared list, so the extend appends
them a second time; in free-form mode the snapshot list is untouched and the extend is
the only append. -/
def run_rounds (behave : String → String → Except String String) (now : String)
    (topic : String) (mode : String) (roles : List String) :
    Nat → Nat → List AgentContribution → List AgentContribution
  | _, 0, history => history
  | round_num, Nat.succ r, history =>
    if mode = "round-robin" then
      let o := run_round_robin behave now topic round_num roles history
      run_rounds behave now topic mode roles (round_num + 1) r (o.2 ++ o.1.map Prod.fst)
    else
      let o := run_free_form behave now topic round_num roles history
      run_rounds behave now topic mode roles (round_num + 1) r (history ++ o.map Prod.fst)

/-- Fallback synthesis block appended when the synthesis invocation raises. -/
def fallback_synth_lines (e : String) : List String :=
  ["", "## Synthesis (Basic)", "", "- Discussion captured above",
   "- Unable to generate AI synthesis: " ++ e, ""]

/-- Round numbers present in the history, ascending (sorted(by_round.keys())). -/
def round_nums (h : List AgentContribution) : List Nat :=
  List.insertionSort (fun a b => a ≤ b) ((h.map (fun c => c.round_num)).dedup)

/-- Lines of the synthesis document built by _synthesize_discussion: the transcript
grouped by round, followed by either the AI-generated synthesis text or, when the
synthesis invocation raises, the fixed fallback block. outcome stands for the single
synthesis invocation at the boundary. -/
def synth_lines (history : List AgentContribution)
    (outcome : Except String String) : List String :=
  let base := ["# Multi-Agent Discussion Synthesis", ""]
    ++ (round_nums history).flatMap (fun r =>
        ["## Round " ++ toString r, ""]
          ++ (history.filter (fun c => c.round_num = r)).flatMap (fun c =>
              ["**" ++ c.agent_name ++ " (" ++ c.agent_type ++ "):** " ++ c.content, ""]))
  match outcome with
  | Except.ok text => base ++ ["", "## AI-Generated Synthesis", "", text]
  | Except.error e => base ++ fallback_synth_lines e

/-- Models _synthesize_discussion: the synthesis document joined with newlines. -/
def synthesize_discussion (history : List AgentContribution)
    (outcome : Except String String) : String :=
  String.intercalate "\n" (synth_lines history outcome)

/-- Models run_party_mode: run the rounds (round_num starting at 1), synthesize, and
return a PartyModeResult whose status is the literal "success". -/
def run_party_mode (behave : String → String → Except String String)
    (synth : Except String String) (now : String) (agent_types : List String)
    (discussion_topic : String) (rounds : Nat) (mode : String) : PartyModeResult :=
  let history := run_rounds behave now discussion_topic mode agent_types 1 rounds []
  { discussion_history := history,
    synthesis := synthesize_discussion history synth,
    status := "success" }

end PartyMode

namespace PartyMode

/-- Placeholder contribution used as the default argument of list lookups. -/
def dummy_contribution : AgentContribution :=
  { agent_type := "", agent_name := "", round_num := 0, content := "", timestamp := "" }

/-- Placeholder pair used as the default argument of list lookups. -/
def dummy_pair : AgentContribution × List String := (dummy_contribution, [])

lemma render_line_head (c : AgentContribution) :
    (render_line c).data.head? = some '[' := rfl

lemma topic_line_head (topic : String) :
    ("Discussion Topic: " ++ topic).data.head? = some 'D' := rfl

lemma instruction_head (p : Persona) :
    (instruction_for p).data.head? = some 'Y' := rfl

lemma head_char_ne {s t : String} {a b : Char} (hs : s.data.head? = some a)
    (ht : t.data.head? = some b) (hab : a ≠ b) : s ≠ t := by
  intro he
  rw [he, ht] at hs
  exact hab (Option.some.inj hs).symm

lemma head_char_ne_none {s t : String} {a : Char} (hs : s.data.head? = some a)
    (ht : t.data.head? = none) : s ≠ t := by
  intro he
  rw [he, ht] at hs
  cases hs

end PartyMode

/-- C10: run_party_mode returns status success unconditionally, for every combination of
roles, topic, rounds, mode and every behaviour of the per-contribution and synthesis
invocations (including all of them failing); the documented failed status value is never
produced by this operation. -/
theorem party_mode_status_unconditionally_success
    (behave : String → String → Except String String) (synth : Except String String)
    (now : String) (agent_types : List String) (discussion_topic : String)
    (rounds : Nat) (mode : String) :
    (PartyMode.run_party_mode behave synth now agent_types discussion_topic rounds
      mode).status = "success" := rfl

/-- C9: when the synthesis invocation raises, run_party_mode still returns (it is a total
function of the boundary outcomes), the fixed fallback block is a suffix of the synthesis
document lines, the synthesis field is exactly those lines joined with newlines, and the
status is still success. -/
theorem synthesis_degrades_gracefully
    (behave : String → String → Except String String) (e : String)
    (now : String) (agent_types : List String) (discussion_topic : String)
    (rounds : Nat) (mode : String) :
    (PartyMode.run_party_mode behave (Except.error e) now agent_types discussion_topic
      rounds mode).status = "success"
    ∧ PartyMode.fallback_synth_lines e <:+ PartyMode.synth_lines
        ((PartyMode.run_party_mode behave (Except.error e) now agent_types
          discussion_topic rounds mode).discussion_history) (Except.error e)
    ∧ (PartyMode.run_party_mode behave (Except.error e) now agent_types discussion_topic
        rounds mode).synthesis
      = String.intercalate "\n" (PartyMode.synth_lines
          ((PartyMode.run_party_mode behave (Except.error e) now agent_types
            discussion_topic rounds mode).discussion_history) (Except.error e)) :=
  ⟨rfl, ⟨_, rfl⟩, rfl⟩

/-- C6: refuting evaluation. In a round-robin session with one role and one round, the
returned discussion_history holds two entries and they are the same contribution: the
round-robin helper appends each contribution to the shared history list and run_party_mode
extends the same list with the round outputs again, so every round-robin contribution is
duplicated (2*R*P entries instead of R*P). The same session in free-form mode yields the
single expected entry. -/
theorem round_robin_history_duplicated
    (behave : String → String → Except String String) (synth : Except String String)
    (now topic : String) :
    (PartyMode.run_party_mode behave synth now ["pm"] topic 1
        "round-robin").discussion_history.length = 2
    ∧ (PartyMode.run_party_mode behave synth now ["pm"] topic 1
        "round-robin").discussion_history.getD 0 PartyMode.dummy_contribution
      = (PartyMode.run_party_mode behave synth now ["pm"] topic 1
        "round-robin").discussion_history.getD 1 PartyMode.dummy_contribution
    ∧ (PartyMode.run_party_mode behave synth now ["pm"] topic 1
        "free-form").discussion_history.length = 1 :=
  ⟨rfl, rfl, rfl⟩

/-- C5: with roles [A, B] and one round, the context built for the second round-robin
invocation contains the rendered line of the first contribution, while in free-form mode
with the same inputs neither invocation context contains the rendering of the sibling
contribution of the same round. -/
theorem round_robin_visibility_vs_free_form (A B topic now : String)
    (behave : String → String → Except String String) :
    PartyMode.render_line (((PartyMode.run_round_robin behave now topic 1 [A, B] []).1.getD
        0 PartyMode.dummy_pair).1)
      ∈ ((PartyMode.run_round_robin behave now topic 1 [A, B] []).1.getD 1
        PartyMode.dummy_pair).2
    ∧ PartyMode.render_line (((PartyMode.run_free_form behave now topic 1 [A, B] []).getD
        0 PartyMode.dummy_pair).1)
      ∉ ((PartyMode.run_free_form behave now topic 1 [A, B] []).getD 1
        PartyMode.dummy_pair).2
    ∧ PartyMode.render_line (((PartyMode.run_free_form behave now topic 1 [A, B] []).getD
        1 PartyMode.dummy_pair).1)
      ∉ ((PartyMode.run_free_form behave now topic 1 [A, B] []).getD 0
        PartyMode.dummy_pair).2 := by
  have hA : (PartyMode.run_round_robin behave now topic 1 [A, B] []).1.getD 0
      PartyMode.dummy_pair = PartyMode.get_agent_contribution behave now A topic [] 1 := rfl
  have hB : (PartyMode.run_round_robin behave now topic 1 [A, B] []).1.getD 1
      PartyMode.dummy_pair
      = PartyMode.get_agent_contribution behave now B topic
          [(PartyMode.get_agent_contribution behave now A topic [] 1).1] 1 := rfl
  have hctxB : (PartyMode.get_agent_contribution behave now B topic
      [(PartyMode.get_agent_contribution behave now A topic [] 1).1] 1).2
      = ["Discussion Topic: " ++ topic, "", "Previous Discussion:",
         PartyMode.render_line (PartyMode.get_agent_contribution behave now A topic [] 1).1,
         "", PartyMode.instruction_for (PartyMode.persona_for B)] := rfl
  have hfA : (PartyMode.run_free_form behave now topic 1 [A, B] []).getD 0
      PartyMode.dummy_pair = PartyMode.get_agent_contribution behave now A topic [] 1 := rfl
  have hfB : (PartyMode.run_free_form behave now topic 1 [A, B] []).getD 1
      PartyMode.dummy_pair = PartyMode.get_agent_contribution behave now B topic [] 1 := rfl
  have hctxEmpty : ∀ t : String, (PartyMode.get_agent_contribution behave now t topic [] 1).2
      = ["Discussion Topic: " ++ topic, "", PartyMode.instruction_for
          (PartyMode.persona_for t)] := fun _ => rfl
  refine ⟨?_, ?_, ?_⟩
  · rw [hA, hB, hctxB]
    simp
  · rw [hfA, hfB, hctxEmpty]
    intro hmem
    simp only [List.mem_cons, List.mem_singleton, List.not_mem_nil, or_false] at hmem
    rcases hmem with h | h | h
    · exact PartyMode.head_char_ne (PartyMode.render_line_head _)
        (PartyMode.topic_line_head topic) (by decide) h
    · exact PartyMode.head_char_ne_none (PartyMode.render_line_head _)
        (show ("" : String).data.head? = none from rfl) h
    · exact PartyMode.head_char_ne (PartyMode.render_line_head _)
        (PartyMode.instruction_head _) (by decide) h
  · rw [hfA, hfB, hctxEmpty]
    intro hmem
    simp only [List.mem_cons, List.mem_singleton, List.not_mem_nil, or_false] at hmem
    rcases hmem with h | h | h
    · exact PartyMode.head_char_ne (PartyMode.render_line_head _)
        (PartyMode.topic_line_head topic) (by decide) h
    · exact PartyMode.head_char_ne_none (PartyMode.render_line_head _)
        (show ("" : String).data.head? = none from rfl) h
    · exact PartyMode.head_char_ne (PartyMode.render_line_head _)
        (PartyMode.instruction_head _) (by decide) h

/-- C8: the context built for any invocation renders at most the 10 most recent prior
contributions: the slice named in the context is a suffix of the history of length at
most 10, and every context line other than the four fixed ones is the rendering of a
member of that slice, regardless of how long the full transcript is. -/
theorem bounded_context_history (behave : String → String → Except String String)
    (now agent_type topic : String) (history : List PartyMode.AgentContribution)
    (round_num : Nat) :
    (PartyMode.lastN 10 history).length ≤ 10
    ∧ PartyMode.lastN 10 history <:+ history
    ∧ ∀ s ∈ (PartyMode.get_agent_contribution behave now agent_type topic history
        round_num).2,
        s = "Discussion Topic: " ++ topic ∨ s = "" ∨ s = "Previous Discussion:"
          ∨ s = PartyMode.instruction_for (PartyMode.persona_for agent_type)
          ∨ ∃ c ∈ PartyMode.lastN 10 history, s = PartyMode.render_line c := by
  refine ⟨?_, ?_, ?_⟩
  · rw [PartyMode.lastN, List.length_drop]
    omega
  · exact List.drop_suffix _ _
  · intro s hs
    have h2 : (PartyMode.get_agent_contribution behave now agent_type topic history
        round_num).2
        = PartyMode.build_context_lines topic history
            (PartyMode.persona_for agent_type) := rfl
    rw [h2, PartyMode.build_context_lines] at hs
    rcases List.mem_append.mp hs with h12 | h3
    · rcases List.mem_append.mp h12 with h1 | hX
      · rcases List.mem_cons.mp h1 with h | h1b
        · exact Or.inl h
        · rw [List.mem_singleton] at h1b
          exact Or.inr (Or.inl h1b)
      · by_cases hh : history.isEmpty = true
        · rw [if_pos hh] at hX
          simp at hX
        · rw [if_neg hh] at hX
          rcases List.mem_append.mp hX with hPD | hE
          · rcases List.mem_cons.mp hPD with h | hmap
            · exact Or.inr (Or.inr (Or.inl h))
            · obtain ⟨c, hc, hcr⟩ := List.mem_map.mp hmap
              exact Or.inr (Or.inr (Or.inr (Or.inr ⟨c, hc, hcr.symm⟩)))
          · rw [List.mem_singleton] at hE
            exact Or.inr (Or.inl hE)
    · rw [List.mem_singleton] at h3
      exact Or.inr (Or.inr (Or.inr (Or.inl h3)))
